import Mathlib

/-!
# Verification of the temporal activity aggregation & outlier analysis engine

Shallow embedding of the commit-analysis scripts (`1_collapse.py`,
`2_outliers.py`, `6_summary.py`, `7_only_graphs.py`, `main/3_individual_outliers.py`,
`main/4_without_outliers.py`, `main/5_user_week.py`).

Modelling conventions:
* Calendar dates are day numbers (`ℤ`), counted from 2024-01-01 = day 0.
  Only day differences and comparisons matter to the code, so this is exact.
  Constants: 2024-05-01 = 121, 2024-07-17 = 198, 2024-09-03 = 246,
  2024-09-04 = 247.
* A raw date string is modelled by its `strptime` parse result:
  `RawDate := Option ℤ`, where `none` stands for a string that fails to
  parse (raising `ValueError` in Python) and `some d` for a string parsing
  to day number `d`.
* Daily commit counts are `ℕ` (the input contract: non-negative integers).
* Python `dict` iteration becomes a list of key/value pairs; the
  uniqueness of `dict` keys becomes `Nodup` hypotheses where it matters.
* `defaultdict(int)` maps become total functions with default `0`.
* A Python function that can raise becomes an `Option`-valued function
  (`none` = the exception propagates).
* Python floats are modelled exactly as `ℚ` (and `ℝ` where `numpy`'s
  square root enters).
-/

namespace DataTesis

/-- Parse result of a date string: `none` if `strptime` fails, `some d`
for the day number otherwise. -/
abbrev RawDate := Option ℤ

/-- Day number of 2024-05-01. -/
def may1 : ℤ := 121

/-- Day number of 2024-07-17. -/
def jul17 : ℤ := 198

/-- Day number of 2024-09-03 (the `aug_end` of `main/3_individual_outliers.py`). -/
def sep3 : ℤ := 246

/-- Day number of 2024-09-04 (the `aug_end` of `main/5_user_week.py` and others). -/
def sep4 : ℤ := 247

/-- A user record: the `daily_commits` mapping as a list of
(parsed date, commit count) pairs. -/
structure UserData where
  daily_commits : List (RawDate × ℕ)
deriving Repr, DecidableEq

/-- The input `commits_data` mapping: username → user record, as a list
of `dict` items. -/
abbrev CommitsData := List (String × UserData)

/-! ## Calendar bucketer

`get_week_start_date` in every script computes
`week_number = (date - reference_date).days // 7` and
`week_start = reference_date + timedelta(days=week_number * 7)`.
Python `//` on integers is floor division, i.e. `Int.fdiv`. -/

/-- The bucketing arithmetic shared by every `get_week_start_date`
variant: day difference, floor-divide by 7, scale back. -/
def bucket (anchor : ℤ) (date : ℤ) : ℤ :=
  let days_diff := date - anchor
  let week_number := days_diff.fdiv 7
  anchor + week_number * 7

/-- `get_week_start_date` of `src/1_collapse.py`: anchor 2024-07-17, no
`try`/`except`, so a malformed date propagates `ValueError` (`none`). -/
def get_week_start_date1 (d : RawDate) : Option ℤ :=
  d.map (bucket jul17)

/-- `get_week_start_date` of `src/6_summary.py` / `src/7_only_graphs.py`:
anchor 2024-05-01, wrapped in `try`/`except ValueError: return None`. -/
def get_week_start_date6 (d : RawDate) : Option ℤ :=
  d.map (bucket may1)

/-- `get_week_start_date` of `src/main/5_user_week.py`: anchor 2024-07-17,
wrapped in `try`/`except ValueError: return None`. -/
def get_week_start_date5 (d : RawDate) : Option ℤ :=
  d.map (bucket jul17)

/-! ## `collapse_to_weekly` (`src/1_collapse.py`)

The inner loop body is
`if commit_count > 0: week_start = get_week_start_date(date_str); weekly_commits[week_start] += commit_count`.
The `strptime` inside `get_week_start_date` is unguarded, so a malformed
date string reached with a positive count raises `ValueError` and aborts
the whole run (`none`). Zero-count entries are skipped before any
parsing. -/

/-- One iteration of the inner loop of `collapse_to_weekly` in
`src/1_collapse.py`, acting on the accumulated `defaultdict(int)`
(`none` = an exception has propagated). -/
def collapseStep (acc : Option (ℤ → ℕ)) (rec : RawDate × ℕ) : Option (ℤ → ℕ) :=
  match acc with
  | none => none
  | some m =>
    if 0 < rec.2 then
      match get_week_start_date1 rec.1 with
      | none => none
      | some ws => some (fun w => if w = ws then m w + rec.2 else m w)
    else some m

/-- `collapse_to_weekly` from `src/1_collapse.py`: fold over all users and
their `daily_commits`, accumulating week-start → total commits. -/
def collapse_to_weekly (data : CommitsData) : Option (ℤ → ℕ) :=
  data.foldl (fun acc u => u.2.daily_commits.foldl collapseStep acc) (some fun _ => 0)

/-- Spec side of C1: the contribution of one daily record to a window `W`
of week buckets — its count if the count is strictly positive and the
date parses with its bucket in `W`, else `0`. -/
def recordWindowCount (W : List ℤ) (rec : RawDate × ℕ) : ℕ :=
  match rec.1 with
  | some d => if 0 < rec.2 ∧ bucket jul17 d ∈ W then rec.2 else 0
  | none => 0

/-- Spec side of C1: the sum over all users and daily records of the
strictly positive commit counts whose dates fall in the window `W`. -/
def windowDailySum (data : CommitsData) (W : List ℤ) : ℕ :=
  (data.map (fun u => (u.2.daily_commits.map (recordWindowCount W)).sum)).sum

/-! ## Record-level date filtering (`src/main/3_individual_outliers.py`) -/

/-- `filter_may_august_commits` from `src/main/3_individual_outliers.py`:
keeps the records whose date string parses and lies in
2024-05-01 .. 2024-09-03; the `ValueError` of a malformed date is caught
and that record alone is skipped (`continue`). -/
def filter_may_august_commits (daily : List (RawDate × ℕ)) : List (RawDate × ℕ) :=
  daily.filter (fun rec =>
    match rec.1 with
    | some d => decide (may1 ≤ d ∧ d ≤ sep3)
    | none => false)

/-! ## Cohort filter (`src/6_summary.py`, identical in `src/7_only_graphs.py`)

`filter_consistent_users` builds, per user, a `defaultdict(int)` of
weekly totals restricted to `pre_treatment_weeks` (only positive daily
counts whose dates parse, anchor 2024-05-01), then keeps the user iff
`len(user_weekly_commits) == len(pre_treatment_weeks)` and all stored
values are positive. -/

/-- One iteration of the per-user aggregation loop inside
`filter_consistent_users`. The accumulator carries the `dict`'s key list
and its totals (default `0`). -/
def cohortStep (pre : List ℤ) (acc : List ℤ × (ℤ → ℕ)) (rec : RawDate × ℕ) :
    List ℤ × (ℤ → ℕ) :=
  if 0 < rec.2 then
    match get_week_start_date6 rec.1 with
    | some ws =>
      if ws ∈ pre then
        (if ws ∈ acc.1 then acc.1 else ws :: acc.1,
         fun w => if w = ws then acc.2 w + rec.2 else acc.2 w)
      else acc
    | none => acc
  else acc

/-- The `user_weekly_commits` dictionary built by
`filter_consistent_users` for one user. -/
def buildUserWeekly (pre : List ℤ) (daily : List (RawDate × ℕ)) :
    List ℤ × (ℤ → ℕ) :=
  daily.foldl (cohortStep pre) ([], fun _ => 0)

/-- The qualification test of `filter_consistent_users`:
`len(user_weekly_commits) == len(pre_treatment_weeks) and
all(v > 0 for v in user_weekly_commits.values())`. -/
def consistentPred (pre : List ℤ) (u : String × UserData) : Bool :=
  (buildUserWeekly pre u.2.daily_commits).1.length == pre.length
    && (buildUserWeekly pre u.2.daily_commits).1.all
        (fun w => decide (0 < (buildUserWeekly pre u.2.daily_commits).2 w))

/-- `filter_consistent_users` from `src/6_summary.py` /
`src/7_only_graphs.py`. -/
def filter_consistent_users (pre : List ℤ) (data : CommitsData) : List String :=
  (data.filter (consistentPred pre)).map Prod.fst

/-- Spec side of C2: a user's weekly total for bucket `w` under the
2024-05-01 anchor — the sum of the strictly positive daily counts whose
dates parse and bucket to `w`. -/
def userWeeklyTotal (daily : List (RawDate × ℕ)) (w : ℤ) : ℕ :=
  (daily.map (fun rec =>
    match rec.1 with
    | some d => if 0 < rec.2 ∧ bucket may1 d = w then rec.2 else 0
    | none => 0)).sum

/-- Contribution of one daily record to the `pre`-restricted weekly total
at bucket `w` (proof-internal view of one `cohortStep`). -/
def preRecordCount (pre : List ℤ) (w : ℤ) (rec : RawDate × ℕ) : ℕ :=
  if 0 < rec.2 then
    match get_week_start_date6 rec.1 with
    | some ws => if ws ∈ pre ∧ w = ws then rec.2 else 0
    | none => 0
  else 0

/-- The `pre`-restricted weekly total of a user at bucket `w`. -/
def preTotal (pre : List ℤ) (daily : List (RawDate × ℕ)) (w : ℤ) : ℕ :=
  (daily.map (preRecordCount pre w)).sum

/-! ## Outlier analysis of weekly totals (`src/2_outliers.py`) -/

/-- The dictionary returned by `analyze_outliers`: the average, the three
thresholds and the four week categories of the `if/elif` cascade. -/
structure OutlierAnalysis where
  average : ℚ
  thr50above : ℚ
  thr50below : ℚ
  thr100above : ℚ
  normal : List (ℤ × ℕ)
  high50 : List (ℤ × ℕ)
  low50 : List (ℤ × ℕ)
  high100 : List (ℤ × ℕ)
deriving Repr, DecidableEq

/-- `average_commits = sum(commits_list) / len(commits_list)` of
`analyze_outliers`. -/
def weeklyAverage (weekly : List (ℤ × ℕ)) : ℚ :=
  (((weekly.map (·.2)).sum : ℕ) : ℚ) / ((weekly.map (·.2)).length : ℚ)

/-- `analyze_outliers` from `src/2_outliers.py`: `raise ValueError` on
empty input (modelled `none`; the second `len == 0` check is
unreachable); otherwise each week lands in the first matching branch of
`commits >= 2·avg` / `commits >= 1.5·avg` / `commits <= 0.5·avg` / else
normal. -/
def analyze_outliers (weekly : List (ℤ × ℕ)) : Option OutlierAnalysis :=
  if weekly = [] then none
  else some {
    average := weeklyAverage weekly
    thr50above := weeklyAverage weekly * 1.5
    thr50below := weeklyAverage weekly * 0.5
    thr100above := weeklyAverage weekly * 2
    high100 := weekly.filter (fun r => decide ((r.2 : ℚ) ≥ weeklyAverage weekly * 2))
    high50 := weekly.filter (fun r =>
      !decide ((r.2 : ℚ) ≥ weeklyAverage weekly * 2)
        && decide ((r.2 : ℚ) ≥ weeklyAverage weekly * 1.5))
    low50 := weekly.filter (fun r =>
      !decide ((r.2 : ℚ) ≥ weeklyAverage weekly * 2)
        && !decide ((r.2 : ℚ) ≥ weeklyAverage weekly * 1.5)
        && decide ((r.2 : ℚ) ≤ weeklyAverage weekly * 0.5))
    normal := weekly.filter (fun r =>
      !decide ((r.2 : ℚ) ≥ weeklyAverage weekly * 2)
        && !decide ((r.2 : ℚ) ≥ weeklyAverage weekly * 1.5)
        && !decide ((r.2 : ℚ) ≤ weeklyAverage weekly * 0.5)) }

/-! ## Per-user outlier search (`src/main/3_individual_outliers.py`) -/

/-- The fields of `calculate_distribution_stats` that
`find_outliers_by_method` reads. -/
structure DistStats where
  mean : ℚ
  std : ℚ
  p25 : ℚ
  p99 : ℚ
  lower_bound : ℚ
  upper_bound : ℚ
deriving Repr, DecidableEq

/-- The five outlier lists of `find_outliers_by_method`. -/
structure OutlierSets where
  iqr_outliers : List (String × ℚ)
  above_2_sigma : List (String × ℚ)
  above_3_sigma : List (String × ℚ)
  top_1_percent : List (String × ℚ)
  bottom_1_percent : List (String × ℚ)
deriving Repr, DecidableEq

/-- `find_outliers_by_method` from `src/main/3_individual_outliers.py`:
the guard `if not values or not usernames or stats['mean'] == 0` returns
the empty sets; otherwise each zipped (username, value) pair is tested
against the IQR fence, the 2σ/3σ bands, the P99 cutoff and the
`P25 × 0.25` bottom rule. -/
def find_outliers_by_method (values : List ℚ) (usernames : List String)
    (stats : DistStats) : OutlierSets :=
  if values = [] ∨ usernames = [] ∨ stats.mean = 0 then ⟨[], [], [], [], []⟩
  else
    { iqr_outliers := (usernames.zip values).filter (fun p =>
        decide (p.2 < stats.lower_bound) || decide (p.2 > stats.upper_bound))
      above_2_sigma := (usernames.zip values).filter (fun p =>
        decide (|p.2 - stats.mean| > 2 * stats.std))
      above_3_sigma := (usernames.zip values).filter (fun p =>
        decide (|p.2 - stats.mean| > 3 * stats.std))
      top_1_percent := (usernames.zip values).filter (fun p =>
        decide (p.2 ≥ stats.p99))
      bottom_1_percent := (usernames.zip values).filter (fun p =>
        decide (p.2 ≤ stats.p25 * 0.25)) }

/-! ## Relative-threshold outlier removal (`src/main/4_without_outliers.py`) -/

/-- `remove_weekly_outliers` from `src/main/4_without_outliers.py`:
returns `({}, [])` on empty input; otherwise keeps the weeks with
`commits <= average * (1 + threshold_percentage / 100)` and collects the
others as removed outliers. Its average is computed exactly like
`weeklyAverage`. -/
def remove_weekly_outliers (weekly : List (ℤ × ℕ)) (p : ℚ) :
    List (ℤ × ℕ) × List (ℤ × ℕ) :=
  if weekly = [] then ([], [])
  else
    (weekly.filter (fun r =>
        decide ((r.2 : ℚ) ≤ weeklyAverage weekly * (1 + p / 100))),
     weekly.filter (fun r =>
        !decide ((r.2 : ℚ) ≤ weeklyAverage weekly * (1 + p / 100))))

/-- The `mean` field computed by `calculate_distribution_stats`
(`src/main/3_individual_outliers.py`): `0` for empty input, else
`np.mean(values)`. -/
def calculate_distribution_stats_mean (values : List ℚ) : ℚ :=
  if values = [] then 0 else values.sum / (values.length : ℚ)

/-! ## Activity classification (`src/main/3_individual_outliers.py`) -/

/-- `calculate_total_commits_may_aug` from
`src/main/3_individual_outliers.py`: total of the May–August records. -/
def calculate_total_commits_may_aug (daily : List (RawDate × ℕ)) : ℕ :=
  ((filter_may_august_commits daily).map (·.2)).sum

/-- The four user lists built by `classify_users_by_activity`. -/
structure ActivityClasses where
  inactive : List String
  casual : List String
  power_users : List String
  regular : List String
deriving Repr, DecidableEq

/-- `classify_users_by_activity` from
`src/main/3_individual_outliers.py`: per user,
`avg_commits_per_month = total_commits / 4`, then the first matching
branch of `total == 0` / `avg <= 3` / `avg >= 200` / else regular.
Iteration order of the `dict` is preserved. -/
def classify_users_by_activity : CommitsData → ActivityClasses
  | [] => ⟨[], [], [], []⟩
  | u :: rest =>
    let c := classify_users_by_activity rest
    if calculate_total_commits_may_aug u.2.daily_commits = 0 then
      { c with inactive := u.1 :: c.inactive }
    else if (calculate_total_commits_may_aug u.2.daily_commits : ℚ) / 4 ≤ 3 then
      { c with casual := u.1 :: c.casual }
    else if (calculate_total_commits_may_aug u.2.daily_commits : ℚ) / 4 ≥ 200 then
      { c with power_users := u.1 :: c.power_users }
    else
      { c with regular := u.1 :: c.regular }

/-- The branch index (0 = inactive, 1 = casual, 2 = power, 3 = regular)
that `classify_users_by_activity` selects for a user — the `if/elif`
cascade as a function. -/
def activityCategory (u : String × UserData) : ℕ :=
  if calculate_total_commits_may_aug u.2.daily_commits = 0 then 0
  else if (calculate_total_commits_may_aug u.2.daily_commits : ℚ) / 4 ≤ 3 then 1
  else if (calculate_total_commits_may_aug u.2.daily_commits : ℚ) / 4 ≥ 200 then 2
  else 3

/-! ## User-week matrix averages (`src/main/5_user_week.py`)

`user_week_data` is a `defaultdict(lambda: defaultdict(int))`: user →
(week → commits). We model the inner dictionary as a total function with
default `0` and the outer one as a list of (username, cells) items. -/

/-- One week's average over all users, `sum(week_commits) / total_users`,
as computed by both `calculate_weekly_averages` and
`remove_user_week_outliers` (zero cells included in the divisor). -/
def weekAvg (uwd : List (String × (ℤ → ℕ))) (w : ℤ) : ℚ :=
  (((uwd.map (fun u => u.2 w)).sum : ℕ) : ℚ) / (uwd.length : ℚ)

/-- `calculate_weekly_averages` from `src/main/5_user_week.py`: `{}` on
empty users or weeks, else the dictionary week → average. -/
def calculate_weekly_averages (uwd : List (String × (ℤ → ℕ)))
    (sorted_weeks : List ℤ) : List (ℤ × ℚ) :=
  if uwd.isEmpty || sorted_weeks.isEmpty then []
  else sorted_weeks.map (fun w => (w, weekAvg uwd w))

/-- The week-local removal threshold of `remove_user_week_outliers`:
`week_average * (1 + threshold_percentage / 100)`. -/
def userWeekThreshold (uwd : List (String × (ℤ → ℕ))) (p : ℚ) (w : ℤ) : ℚ :=
  weekAvg uwd w * (1 + p / 100)

/-- A cell of `cleaned_data`: the user's commits when within the week's
threshold, else the `defaultdict` zero left by the removal. -/
def cleanedCell (uwd : List (String × (ℤ → ℕ))) (p : ℚ) (w : ℤ)
    (u : String × (ℤ → ℕ)) : ℕ :=
  if (u.2 w : ℚ) ≤ userWeekThreshold uwd p w then u.2 w else 0

/-- One week's cleaned average, dividing by the unchanged total user
count. -/
def cleanedWeekAvg (uwd : List (String × (ℤ → ℕ))) (p : ℚ) (w : ℤ) : ℚ :=
  (((uwd.map (cleanedCell uwd p w)).sum : ℕ) : ℚ) / (uwd.length : ℚ)

/-- One record of the `removed_outliers` list of
`remove_user_week_outliers`. -/
structure RemovedOutlier where
  user : String
  week : ℤ
  commits : ℕ
  week_average : ℚ
  threshold : ℚ

/-- `remove_user_week_outliers` from `src/main/5_user_week.py`:
`({}, [])` on empty input; otherwise per-week removal of the cells above
the week-local threshold, returning the cleaned weekly averages and the
log of removed user-week outliers. -/
def remove_user_week_outliers (uwd : List (String × (ℤ → ℕ)))
    (sorted_weeks : List ℤ) (p : ℚ) : List (ℤ × ℚ) × List RemovedOutlier :=
  if uwd.isEmpty || sorted_weeks.isEmpty then ([], [])
  else
    (sorted_weeks.map (fun w => (w, cleanedWeekAvg uwd p w)),
     sorted_weeks.flatMap (fun w =>
       (uwd.filter (fun u =>
           !decide ((u.2 w : ℚ) ≤ userWeekThreshold uwd p w))).map
         (fun u => ⟨u.1, w, u.2 w, weekAvg uwd w, userWeekThreshold uwd p w⟩)))

/-- Concrete user-week matrix: `a` commits 10 in week 198, `b` nothing. -/
def exUwd : List (String × (ℤ → ℕ)) :=
  [("a", fun w => if w = 198 then 10 else 0), ("b", fun _ => 0)]

/-! ## Consistency score (`src/main/3_individual_outliers.py`)

`numpy` means and variances of integer counts are exact rationals; only
`np.std`'s square root leaves ℚ, so the score is idealized over ℝ. -/

/-- `np.mean` of a list of counts, exactly. -/
def npMean (l : List ℕ) : ℚ := ((l.sum : ℕ) : ℚ) / (l.length : ℚ)

/-- The population variance underlying `np.std`, exactly. -/
def npVariance (l : List ℕ) : ℚ :=
  ((l.map (fun (x : ℕ) => ((x : ℚ) - npMean l) ^ 2)).sum) / (l.length : ℚ)

/-- `np.std`: the population standard deviation. -/
noncomputable def npStd (l : List ℕ) : ℝ :=
  Real.sqrt ((npVariance l : ℚ) : ℝ)

/-- The `active_days` list of `calculate_consistency_score`: the
May–August record values that are strictly positive. -/
def activeDaysOf (daily : List (RawDate × ℕ)) : List ℕ :=
  ((filter_may_august_commits daily).map (·.2)).filter (fun c => decide (0 < c))

/-- `calculate_consistency_score` from
`src/main/3_individual_outliers.py`, guard for guard: empty May–August
values → 0 (the redundant `not commits_list` re-check is the same
test); zero total → 0; fewer than 2 active days → 0; zero mean → 0;
else `1 / (1 + std/mean)`. -/
noncomputable def calculate_consistency_score (daily : List (RawDate × ℕ)) : ℝ :=
  if ((filter_may_august_commits daily).map (·.2)) = [] then 0
  else if ((filter_may_august_commits daily).map (·.2)).sum = 0 then 0
  else if (activeDaysOf daily).length < 2 then 0
  else if npMean (activeDaysOf daily) = 0 then 0
  else 1 / (1 + npStd (activeDaysOf daily) / ((npMean (activeDaysOf daily) : ℚ) : ℝ))

/-- Concrete classification example: one user per activity category. -/
def exData3 : CommitsData :=
  [("a", ⟨[]⟩), ("b", ⟨[(some 130, 5)]⟩), ("c", ⟨[(some 130, 900)]⟩),
   ("d", ⟨[(some 130, 100)]⟩)]

/-- Concrete cohort example: `alice` commits in both pre-treatment weeks
121 and 128, `bob` only in week 121. -/
def exData2 : CommitsData :=
  [("alice", ⟨[(some 121, 1), (some 128, 2)]⟩), ("bob", ⟨[(some 121, 1)]⟩)]

/-- A concrete two-record dataset: user `u` with 3 commits on day 198
(2024-07-17), 4 commits on day 205 (2024-07-24) and an explicit zero on
day 150. -/
def exData1 : CommitsData :=
  [("u", ⟨[(some 198, 3), (some 205, 4), (some 150, 0)]⟩)]

/-- C6: week bucketing is the floor-division formula
`anchor + 7 * ((date - anchor) fdiv 7)`, dates before the anchor get a
strictly negative week number with no special case, and the bucketing is
idempotent: `bucket (bucket date) = bucket date`. -/
theorem bucket_formula_neg_idempotent (a d : ℤ) :
    bucket a d = a + 7 * ((d - a).fdiv 7)
    ∧ (d < a → (d - a).fdiv 7 < 0)
    ∧ bucket a (bucket a d) = bucket a d := by
  refine ⟨by unfold bucket; ring, ?_, ?_⟩
  · intro h
    have hd : d - a < 0 := by omega
    rw [Int.fdiv_eq_ediv _ (by norm_num : (0 : ℤ) ≤ 7)]
    exact Int.ediv_neg' hd (by norm_num)
  · show a + ((a + (d - a).fdiv 7 * 7 - a).fdiv 7) * 7 = a + (d - a).fdiv 7 * 7
    rw [show a + (d - a).fdiv 7 * 7 - a = (d - a).fdiv 7 * 7 from by ring,
      Int.mul_fdiv_cancel _ (by norm_num : (7 : ℤ) ≠ 0)]

/-- Witness for C6 at a concrete date before the anchor. -/
theorem bucket_formula_neg_idempotent_witness :
    (100 : ℤ) < 121
    ∧ bucket 121 100 = 121 + 7 * (((100 : ℤ) - 121).fdiv 7)
    ∧ ((100 : ℤ) - 121).fdiv 7 < 0
    ∧ bucket 121 (bucket 121 100) = bucket 121 100 := by
  have h := bucket_formula_neg_idempotent 121 100
  exact ⟨by decide, h.1, h.2.1 (by decide), h.2.2⟩

/-- Once an exception has propagated, the inner fold stays aborted. -/
theorem foldl_collapseStep_none (L : List (RawDate × ℕ)) :
    L.foldl collapseStep none = none := by
  induction L with
  | nil => rfl
  | cons r L ih => simpa [collapseStep] using ih

/-- Once an exception has propagated, the outer fold stays aborted. -/
theorem foldl_users_none (data : CommitsData) :
    data.foldl (fun acc u => u.2.daily_commits.foldl collapseStep acc) none = none := by
  induction data with
  | nil => rfl
  | cons u data ih => simpa [foldl_collapseStep_none] using ih

/-- Bumping a `defaultdict` at key `b` by `c` raises the sum over a
duplicate-free window `W` by `c` exactly when `b ∈ W`. -/
theorem map_update_sum (W : List ℤ) (hW : W.Nodup) (m : ℤ → ℕ) (b : ℤ) (c : ℕ) :
    (W.map (fun w => if w = b then m w + c else m w)).sum
      = (W.map m).sum + (if b ∈ W then c else 0) := by
  induction W with
  | nil => simp
  | cons a W ih =>
    obtain ⟨ha, hW'⟩ := List.nodup_cons.mp hW
    by_cases hab : a = b
    · subst hab
      have hbW : a ∉ W := ha
      simp only [List.map_cons, List.sum_cons, if_pos rfl, ih hW', List.mem_cons]
      simp [hbW]
      omega
    · by_cases hbW : b ∈ W <;>
        simp [List.map_cons, List.sum_cons, hab, ih hW', List.mem_cons, hbW,
          Ne.symm hab] <;> omega

/-- Conservation along the inner fold of `collapse_to_weekly`: a
successful fold over one user's records adds exactly the in-window
positive daily counts to the window sum. -/
theorem foldl_collapseStep_sum (W : List ℤ) (hW : W.Nodup) :
    ∀ (L : List (RawDate × ℕ)) (acc m : ℤ → ℕ),
      L.foldl collapseStep (some acc) = some m →
      (W.map m).sum = (W.map acc).sum + (L.map (recordWindowCount W)).sum := by
  intro L
  induction L with
  | nil =>
    intro acc m h
    obtain rfl : acc = m := Option.some.inj h
    simp
  | cons r L ih =>
    intro acc m h
    by_cases h2 : 0 < r.2
    · cases hr : r.1 with
      | none =>
        rw [List.foldl_cons] at h
        simp only [collapseStep, hr, get_week_start_date1, Option.map_none', if_pos h2] at h
        rw [foldl_collapseStep_none] at h
        exact absurd h (by simp)
      | some d =>
        rw [List.foldl_cons] at h
        simp only [collapseStep, hr, get_week_start_date1, Option.map_some', if_pos h2] at h
        have := ih _ _ h
        rw [this, map_update_sum W hW acc (bucket jul17 d) r.2]
        simp only [List.map_cons, List.sum_cons, recordWindowCount, hr, h2, true_and]
        by_cases hb : bucket jul17 d ∈ W <;> simp [hb] <;> omega
    · rw [List.foldl_cons] at h
      simp only [collapseStep, if_neg h2] at h
      have := ih _ _ h
      rw [this]
      have hzero : recordWindowCount W r = 0 := by
        unfold recordWindowCount
        cases r.1 <;> simp [h2]
      simp [hzero]

/-- Conservation along the outer (per-user) fold of `collapse_to_weekly`. -/
theorem foldl_users_sum (W : List ℤ) (hW : W.Nodup) :
    ∀ (data : CommitsData) (acc m : ℤ → ℕ),
      data.foldl (fun a u => u.2.daily_commits.foldl collapseStep a) (some acc) = some m →
      (W.map m).sum = (W.map acc).sum
        + (data.map (fun u => (u.2.daily_commits.map (recordWindowCount W)).sum)).sum := by
  intro data
  induction data with
  | nil =>
    intro acc m h
    obtain rfl : acc = m := Option.some.inj h
    simp
  | cons u data ih =>
    intro acc m h
    rw [List.foldl_cons] at h
    cases hmid : u.2.daily_commits.foldl collapseStep (some acc) with
    | none =>
      rw [hmid, foldl_users_none] at h
      exact absurd h (by simp)
    | some acc' =>
      rw [hmid] at h
      have houter := ih _ _ h
      have hinner := foldl_collapseStep_sum W hW _ _ _ hmid
      rw [houter, hinner, List.map_cons, List.sum_cons]
      omega

/-- C1: conservation of weekly totals. Whenever `collapse_to_weekly`
succeeds, its weekly totals summed over any duplicate-free window of
week buckets equal the sum of the strictly positive daily counts whose
dates fall in the window; moreover appending an explicit zero-count
daily entry to a user leaves the collapsed output unchanged, identically
to an absent date. -/
theorem collapse_to_weekly_conservation (data : CommitsData) (m : ℤ → ℕ)
    (h : collapse_to_weekly data = some m) (W : List ℤ) (hW : W.Nodup) :
    (W.map m).sum = windowDailySum data W
    ∧ ∀ (name : String) (daily : List (RawDate × ℕ)) (rd : RawDate) (rest : CommitsData),
        collapse_to_weekly ((name, ⟨daily ++ [(rd, 0)]⟩) :: rest)
          = collapse_to_weekly ((name, ⟨daily⟩) :: rest) := by
  constructor
  · have := foldl_users_sum W hW data (fun _ => 0) m h
    simpa [windowDailySum, collapse_to_weekly] using this
  · intro name daily rd rest
    unfold collapse_to_weekly
    rw [List.foldl_cons, List.foldl_cons]
    congr 1
    show (daily ++ [(rd, 0)]).foldl collapseStep (some fun _ => 0)
        = daily.foldl collapseStep (some fun _ => 0)
    rw [List.foldl_append]
    cases daily.foldl collapseStep (some fun _ => 0) with
    | none => rfl
    | some m' => simp [collapseStep]

/-- Witness for C1 on `exData1` and the window {198, 205}. -/
theorem collapse_to_weekly_conservation_witness :
    (([198, 205] : List ℤ).map ((collapse_to_weekly exData1).getD (fun _ => 0))).sum
      = windowDailySum exData1 [198, 205] :=
  (collapse_to_weekly_conservation exData1 _ rfl [198, 205] (by decide)).1

/-- C5 counterexample: in `src/1_collapse.py` the date parse is
unguarded, so a single malformed date string with a positive count
aborts the whole batch of `collapse_to_weekly` with `ValueError`
(modelled `none`) instead of being skipped. -/
theorem malformed_date_aborts_collapse :
    collapse_to_weekly [("u", ⟨[(none, 5)]⟩)] = none := rfl

/-- C5 as amended: the guarded operations skip a malformed date and
continue — `filter_may_august_commits` (`src/main/3_individual_outliers.py`)
discards exactly the offending record, and `get_week_start_date`
(`src/main/5_user_week.py`) returns `None` on it while bucketing every
parseable date — but `collapse_to_weekly` of `src/1_collapse.py` parses
without a `try`, so a malformed date with a positive count aborts the
whole batch. -/
theorem malformed_date_handling (xs ys : List (RawDate × ℕ)) (c : ℕ)
    (name : String) (rest : CommitsData) (hc : 0 < c) :
    filter_may_august_commits (xs ++ (none, c) :: ys)
      = filter_may_august_commits (xs ++ ys)
    ∧ get_week_start_date5 none = none
    ∧ (∀ d : ℤ, get_week_start_date5 (some d) = some (bucket jul17 d))
    ∧ collapse_to_weekly ((name, ⟨xs ++ (none, c) :: ys⟩) :: rest) = none := by
  refine ⟨?_, rfl, fun d => rfl, ?_⟩
  · simp [filter_may_august_commits, List.filter_append]
  · unfold collapse_to_weekly
    rw [List.foldl_cons]
    show rest.foldl (fun a u => u.2.daily_commits.foldl collapseStep a)
        ((xs ++ (none, c) :: ys).foldl collapseStep (some fun _ => 0)) = none
    rw [List.foldl_append]
    cases hxs : xs.foldl collapseStep (some fun _ => 0) with
    | none => rw [foldl_collapseStep_none, foldl_users_none]
    | some m =>
      rw [List.foldl_cons]
      simp only [collapseStep, get_week_start_date1, Option.map_none', if_pos hc]
      rw [foldl_collapseStep_none, foldl_users_none]

/-- Witness for the amended C5 at concrete inputs. -/
theorem malformed_date_handling_witness :
    (0 < 7
    ∧ filter_may_august_commits [(some 121, 2), (none, 7)]
        = filter_may_august_commits [(some 121, 2)])
    ∧ collapse_to_weekly [("u", ⟨[(none, 5)]⟩)] = none := by
  refine ⟨⟨by decide, ?_⟩, ?_⟩
  · exact (malformed_date_handling [(some 121, 2)] [] 7 "u" [] (by decide)).1
  · exact (malformed_date_handling [] [] 5 "u" [] (by decide)).2.2.2

/-- Effect of one `cohortStep` on the stored totals. -/
theorem cohortStep_snd (pre : List ℤ) (acc : List ℤ × (ℤ → ℕ)) (rec : RawDate × ℕ)
    (w : ℤ) :
    (cohortStep pre acc rec).2 w = acc.2 w + preRecordCount pre w rec := by
  unfold cohortStep preRecordCount
  by_cases h2 : 0 < rec.2
  · cases hr : get_week_start_date6 rec.1 with
    | none => simp [h2, hr]
    | some ws =>
      by_cases hpre : ws ∈ pre
      · by_cases hw : w = ws
        · subst hw; simp [h2, hr, hpre]
        · simp [h2, hr, hpre, hw]
      · simp [h2, hr, hpre]
  · simp [h2]

/-- Effect of one `cohortStep` on the key list. -/
theorem cohortStep_fst_mem (pre : List ℤ) (acc : List ℤ × (ℤ → ℕ)) (rec : RawDate × ℕ)
    (w : ℤ) :
    w ∈ (cohortStep pre acc rec).1 ↔ w ∈ acc.1 ∨ 0 < preRecordCount pre w rec := by
  unfold cohortStep preRecordCount
  by_cases h2 : 0 < rec.2
  · cases hr : get_week_start_date6 rec.1 with
    | none => simp [h2, hr]
    | some ws =>
      by_cases hpre : ws ∈ pre
      · by_cases hw : w = ws
        · subst hw
          by_cases hacc : w ∈ acc.1 <;> simp [h2, hr, hpre, hacc]
        · by_cases hacc : ws ∈ acc.1 <;> simp [h2, hr, hpre, hacc, hw]
      · simp [h2, hr, hpre]
  · simp [h2]

/-- `cohortStep` keeps the key list duplicate-free. -/
theorem cohortStep_fst_nodup (pre : List ℤ) (acc : List ℤ × (ℤ → ℕ))
    (rec : RawDate × ℕ) (h : acc.1.Nodup) : (cohortStep pre acc rec).1.Nodup := by
  unfold cohortStep
  by_cases h2 : 0 < rec.2
  · cases hr : get_week_start_date6 rec.1 with
    | none => simpa [h2, hr] using h
    | some ws =>
      by_cases hpre : ws ∈ pre
      · by_cases hacc : ws ∈ acc.1
        · simpa [h2, hr, hpre, hacc] using h
        · simp only [h2, hr, hpre, hacc, if_true, if_neg hacc]
          simpa [h2, hr, hpre, hacc] using List.nodup_cons.mpr ⟨hacc, h⟩
      · simpa [h2, hr, hpre] using h
  · simpa [h2] using h

/-- `cohortStep` only ever inserts keys from `pre`. -/
theorem cohortStep_fst_subset (pre : List ℤ) (acc : List ℤ × (ℤ → ℕ))
    (rec : RawDate × ℕ) (h : acc.1 ⊆ pre) : (cohortStep pre acc rec).1 ⊆ pre := by
  unfold cohortStep
  by_cases h2 : 0 < rec.2
  · cases hr : get_week_start_date6 rec.1 with
    | none => simpa [h2, hr] using h
    | some ws =>
      by_cases hpre : ws ∈ pre
      · by_cases hacc : ws ∈ acc.1
        · simpa [h2, hr, hpre, hacc] using h
        · simpa [h2, hr, hpre, hacc] using List.cons_subset.mpr ⟨hpre, h⟩
      · simpa [h2, hr, hpre] using h
  · simpa [h2] using h

/-- Totals after folding a user's daily records. -/
theorem cohortFold_snd (pre : List ℤ) :
    ∀ (daily : List (RawDate × ℕ)) (acc : List ℤ × (ℤ → ℕ)) (w : ℤ),
      (daily.foldl (cohortStep pre) acc).2 w = acc.2 w + preTotal pre daily w := by
  intro daily
  induction daily with
  | nil => intro acc w; simp [preTotal]
  | cons r daily ih =>
    intro acc w
    rw [List.foldl_cons, ih, cohortStep_snd]
    simp only [preTotal, List.map_cons, List.sum_cons]
    omega

/-- Key membership after folding a user's daily records. -/
theorem cohortFold_fst_mem (pre : List ℤ) :
    ∀ (daily : List (RawDate × ℕ)) (acc : List ℤ × (ℤ → ℕ)) (w : ℤ),
      w ∈ (daily.foldl (cohortStep pre) acc).1
        ↔ w ∈ acc.1 ∨ 0 < preTotal pre daily w := by
  intro daily
  induction daily with
  | nil => intro acc w; simp [preTotal]
  | cons r daily ih =>
    intro acc w
    rw [List.foldl_cons, ih, cohortStep_fst_mem]
    simp only [preTotal, List.map_cons, List.sum_cons]
    by_cases hm : w ∈ acc.1 <;> simp [hm] <;> omega

/-- The key list after folding stays duplicate-free. -/
theorem cohortFold_fst_nodup (pre : List ℤ) :
    ∀ (daily : List (RawDate × ℕ)) (acc : List ℤ × (ℤ → ℕ)),
      acc.1.Nodup → (daily.foldl (cohortStep pre) acc).1.Nodup := by
  intro daily
  induction daily with
  | nil => intro acc h; exact h
  | cons r daily ih =>
    intro acc h
    rw [List.foldl_cons]
    exact ih _ (cohortStep_fst_nodup pre acc r h)

/-- The key list after folding stays inside `pre`. -/
theorem cohortFold_fst_subset (pre : List ℤ) :
    ∀ (daily : List (RawDate × ℕ)) (acc : List ℤ × (ℤ → ℕ)),
      acc.1 ⊆ pre → (daily.foldl (cohortStep pre) acc).1 ⊆ pre := by
  intro daily
  induction daily with
  | nil => intro acc h; exact h
  | cons r daily ih =>
    intro acc h
    rw [List.foldl_cons]
    exact ih _ (cohortStep_fst_subset pre acc r h)

/-- The stored totals of `buildUserWeekly` are the `pre`-restricted sums. -/
theorem buildUserWeekly_snd (pre : List ℤ) (daily : List (RawDate × ℕ)) (w : ℤ) :
    (buildUserWeekly pre daily).2 w = preTotal pre daily w := by
  unfold buildUserWeekly
  rw [cohortFold_snd]
  simp

/-- A week is a key of `buildUserWeekly` iff its restricted total is
positive. -/
theorem buildUserWeekly_mem (pre : List ℤ) (daily : List (RawDate × ℕ)) (w : ℤ) :
    w ∈ (buildUserWeekly pre daily).1 ↔ 0 < preTotal pre daily w := by
  unfold buildUserWeekly
  rw [cohortFold_fst_mem]
  simp

/-- The key list of `buildUserWeekly` is duplicate-free. -/
theorem buildUserWeekly_nodup (pre : List ℤ) (daily : List (RawDate × ℕ)) :
    (buildUserWeekly pre daily).1.Nodup :=
  cohortFold_fst_nodup pre daily _ List.nodup_nil

/-- The key list of `buildUserWeekly` only holds weeks of `pre`. -/
theorem buildUserWeekly_subset (pre : List ℤ) (daily : List (RawDate × ℕ)) :
    (buildUserWeekly pre daily).1 ⊆ pre :=
  cohortFold_fst_subset pre daily _ (List.nil_subset pre)

/-- For a week inside `pre`, the restricted total is the plain weekly
total. -/
theorem preTotal_eq_userWeeklyTotal (pre : List ℤ) (daily : List (RawDate × ℕ))
    (w : ℤ) (hw : w ∈ pre) : preTotal pre daily w = userWeeklyTotal daily w := by
  unfold preTotal userWeeklyTotal
  congr 1
  apply List.map_congr_left
  intro rec _
  unfold preRecordCount get_week_start_date6
  by_cases h2 : 0 < rec.2
  · cases hr : rec.1 with
    | none => simp [h2, hr]
    | some d =>
      by_cases hb : w = bucket may1 d
      · subst hb; simp [h2, hr, hw]
      · have hb' : ¬bucket may1 d = w := fun h => hb h.symm
        simp [h2, hr, hb, hb']
  · cases hr : rec.1 <;> simp [h2, hr]

/-- C3 counterexample: with an empty pre-treatment window,
`filter_consistent_users` returns the full population, not no users. -/
theorem filter_consistent_users_empty_counterexample :
    filter_consistent_users [] [("alice", UserData.mk [])] ≠ [] := by decide

/-- C3 as amended: an empty `pre_treatment_weeks` qualifies every user —
both the key-count test (`0 == 0`) and the `all` over an empty dict are
vacuously true — so `filter_consistent_users` silently returns the full
population instead of disqualifying everyone. -/
theorem filter_consistent_users_empty_pre (data : CommitsData) :
    filter_consistent_users [] data = data.map Prod.fst := by
  unfold filter_consistent_users
  rw [List.filter_eq_self.mpr]
  intro u _
  have hkeys : (buildUserWeekly [] u.2.daily_commits).1 = [] :=
    List.subset_nil.mp (buildUserWeekly_subset [] u.2.daily_commits)
  unfold consistentPred
  rw [hkeys]
  rfl

/-- The qualification test of `filter_consistent_users` holds iff the
user's weekly total is strictly positive in every week of the
(duplicate-free) window. -/
theorem consistentPred_iff (pre : List ℤ) (hnd : pre.Nodup) (u : String × UserData) :
    consistentPred pre u = true
      ↔ ∀ w ∈ pre, 0 < userWeeklyTotal u.2.daily_commits w := by
  unfold consistentPred
  rw [Bool.and_eq_true, beq_iff_eq, List.all_eq_true]
  have hnodk : (buildUserWeekly pre u.2.daily_commits).1.Nodup :=
    buildUserWeekly_nodup pre _
  have hsub : (buildUserWeekly pre u.2.daily_commits).1 ⊆ pre :=
    buildUserWeekly_subset pre _
  constructor
  · rintro ⟨hlen, -⟩ w hw
    have hfs : (buildUserWeekly pre u.2.daily_commits).1.toFinset = pre.toFinset := by
      apply Finset.eq_of_subset_of_card_le
      · intro x hx
        exact List.mem_toFinset.mpr (hsub (List.mem_toFinset.mp hx))
      · rw [List.toFinset_card_of_nodup hnodk, List.toFinset_card_of_nodup hnd, hlen]
    have hwk : w ∈ (buildUserWeekly pre u.2.daily_commits).1 := by
      rw [← List.mem_toFinset, hfs]
      exact List.mem_toFinset.mpr hw
    rw [buildUserWeekly_mem] at hwk
    rwa [preTotal_eq_userWeeklyTotal pre _ w hw] at hwk
  · intro hall
    have hsub2 : pre ⊆ (buildUserWeekly pre u.2.daily_commits).1 := by
      intro w hw
      rw [buildUserWeekly_mem, preTotal_eq_userWeeklyTotal pre _ w hw]
      exact hall w hw
    have hfs : (buildUserWeekly pre u.2.daily_commits).1.toFinset = pre.toFinset := by
      apply Finset.Subset.antisymm <;> intro x hx
      · exact List.mem_toFinset.mpr (hsub (List.mem_toFinset.mp hx))
      · exact List.mem_toFinset.mpr (hsub2 (List.mem_toFinset.mp hx))
    refine ⟨?_, ?_⟩
    · calc (buildUserWeekly pre u.2.daily_commits).1.length
          = (buildUserWeekly pre u.2.daily_commits).1.toFinset.card :=
            (List.toFinset_card_of_nodup hnodk).symm
        _ = pre.toFinset.card := by rw [hfs]
        _ = pre.length := List.toFinset_card_of_nodup hnd
    · intro w hwk
      have := (buildUserWeekly_mem pre u.2.daily_commits w).mp hwk
      rw [buildUserWeekly_snd]
      exact decide_eq_true this

/-- C2: cohort membership is exact. For a duplicate-free, non-empty
pre-treatment window and `dict`-unique usernames, an entry of the input
is returned by `filter_consistent_users` iff its weekly commit total is
strictly positive (present) in every listed week; equivalently every
excluded user has some listed week with a missing or zero total. -/
theorem filter_consistent_users_spec (pre : List ℤ) (hnd : pre.Nodup)
    (hne : pre ≠ []) (data : CommitsData) (hkeys : (data.map Prod.fst).Nodup)
    (u : String × UserData) (hu : u ∈ data) :
    u.1 ∈ filter_consistent_users pre data
      ↔ ∀ w ∈ pre, 0 < userWeeklyTotal u.2.daily_commits w := by
  unfold filter_consistent_users
  rw [← consistentPred_iff pre hnd u]
  constructor
  · intro hmem
    obtain ⟨v, hv, hveq⟩ := List.mem_map.mp hmem
    obtain ⟨hvdata, hvpred⟩ := List.mem_filter.mp hv
    have hvu : v = u := List.inj_on_of_nodup_map hkeys hvdata hu hveq
    rwa [hvu] at hvpred
  · intro hpred
    exact List.mem_map.mpr ⟨u, List.mem_filter.mpr ⟨hu, hpred⟩, rfl⟩

/-- Witness for C2: on `exData2` with window {121, 128}, `alice`
(active in both weeks) is in the cohort. -/
theorem filter_consistent_users_spec_witness :
    "alice" ∈ filter_consistent_users [121, 128] exData2 :=
  (filter_consistent_users_spec [121, 128] (by decide) (by decide) exData2
    (by decide) ("alice", UserData.mk [(some 121, 1), (some 128, 2)])
    (by decide)).mpr (by decide)

/-- C4 counterexample: `analyze_outliers` raises `ValueError` (modelled
`none`) on an empty observation set instead of returning a defined
"no boundary, nothing flagged" result. -/
theorem analyze_outliers_empty_raises : analyze_outliers [] = none := rfl

/-- C4 as amended: `find_outliers_by_method` does return all-empty
outlier sets on an empty or zero-mean observation set (and the mean that
`calculate_distribution_stats` feeds it is `0` for empty or all-zero
values), but `analyze_outliers` raises on empty input, and on an
all-zero input it flags every week as `high_100` (all thresholds
degenerate to `0` and `0 >= 0` matches the first branch) with nothing
categorized `normal`. -/
theorem degenerate_outlier_handling :
    (∀ (values : List ℚ) (usernames : List String) (stats : DistStats),
        values = [] ∨ usernames = [] ∨ stats.mean = 0 →
        find_outliers_by_method values usernames stats = ⟨[], [], [], [], []⟩)
    ∧ (∀ values : List ℚ, (∀ v ∈ values, v = 0) →
        calculate_distribution_stats_mean values = 0)
    ∧ analyze_outliers [] = none
    ∧ (∀ weekly : List (ℤ × ℕ), weekly ≠ [] → (∀ r ∈ weekly, r.2 = 0) →
        (analyze_outliers weekly).map OutlierAnalysis.high100 = some weekly
        ∧ (analyze_outliers weekly).map OutlierAnalysis.normal = some []) := by
  refine ⟨?_, ?_, rfl, ?_⟩
  · intro values usernames stats h
    unfold find_outliers_by_method
    rw [if_pos h]
  · intro values h
    unfold calculate_distribution_stats_mean
    by_cases he : values = []
    · rw [if_pos he]
    · rw [if_neg he, List.sum_eq_zero h, zero_div]
  · intro weekly hne hz
    have havg : weeklyAverage weekly = 0 := by
      unfold weeklyAverage
      have hs : (weekly.map (·.2)).sum = 0 := by
        apply List.sum_eq_zero
        intro x hx
        obtain ⟨r, hr, rfl⟩ := List.mem_map.mp hx
        exact hz r hr
      rw [hs]
      norm_num
    unfold analyze_outliers
    rw [if_neg hne]
    constructor
    · simp only [Option.map_some', Option.some.injEq]
      apply List.filter_eq_self.mpr
      intro r hr
      simp [havg, hz r hr]
    · simp only [Option.map_some', Option.some.injEq]
      apply List.filter_eq_nil_iff.mpr
      intro r hr
      simp [havg, hz r hr]

/-- Witness for the amended C4 at concrete degenerate inputs. -/
theorem degenerate_outlier_handling_witness :
    find_outliers_by_method [] [] ⟨0, 0, 0, 0, 0, 0⟩ = ⟨[], [], [], [], []⟩
    ∧ (analyze_outliers [(121, 0)]).map OutlierAnalysis.high100 = some [(121, 0)] := by
  constructor
  · exact degenerate_outlier_handling.1 [] [] ⟨0, 0, 0, 0, 0, 0⟩ (Or.inl rfl)
  · exact (degenerate_outlier_handling.2.2.2 [(121, 0)] (by decide) (by decide)).1

/-- C7: relative-threshold monotonicity. For a fixed weekly-totals
mapping and `p1 ≤ p2`, every week flagged by `remove_weekly_outliers`
at threshold percentage `p2` is also flagged at `p1`: raising the
percentage never enlarges the flagged set. -/
theorem remove_weekly_outliers_monotone (weekly : List (ℤ × ℕ)) (p1 p2 : ℚ)
    (h : p1 ≤ p2) :
    (remove_weekly_outliers weekly p2).2 ⊆ (remove_weekly_outliers weekly p1).2 := by
  by_cases hne : weekly = []
  · subst hne
    simp [remove_weekly_outliers]
  · unfold remove_weekly_outliers
    rw [if_neg hne, if_neg hne]
    intro r hr
    rw [List.mem_filter] at hr ⊢
    obtain ⟨hrw, hcond⟩ := hr
    refine ⟨hrw, ?_⟩
    have havg : 0 ≤ weeklyAverage weekly := by
      unfold weeklyAverage
      positivity
    have hthr : weeklyAverage weekly * (1 + p1 / 100)
        ≤ weeklyAverage weekly * (1 + p2 / 100) := by
      apply mul_le_mul_of_nonneg_left _ havg
      linarith
    simp only [Bool.not_eq_eq_eq_not, Bool.not_true, decide_eq_false_iff_not,
      not_le] at hcond ⊢
    linarith

/-- Witness for C7 on a concrete two-week mapping at percentages 50 and
100. -/
theorem remove_weekly_outliers_monotone_witness :
    (50 : ℚ) ≤ 100
    ∧ (remove_weekly_outliers [(121, 1), (128, 100)] 100).2
        ⊆ (remove_weekly_outliers [(121, 1), (128, 100)] 50).2 :=
  ⟨by norm_num,
   remove_weekly_outliers_monotone [(121, 1), (128, 100)] 50 100 (by norm_num)⟩

/-- Every user falls into one of the four branch indices. -/
theorem activityCategory_cases (u : String × UserData) :
    activityCategory u = 0 ∨ activityCategory u = 1
      ∨ activityCategory u = 2 ∨ activityCategory u = 3 := by
  unfold activityCategory
  split_ifs <;> simp

/-- Prepending a user to the list matching their own branch index. -/
theorem cons_field_iff {u : String × UserData} {rest : CommitsData} {name : String}
    {k : ℕ} {lst : List String} (hcat : activityCategory u = k)
    (ih : name ∈ lst ↔ ∃ v ∈ rest, v.1 = name ∧ activityCategory v = k) :
    name ∈ u.1 :: lst ↔ ∃ v ∈ u :: rest, v.1 = name ∧ activityCategory v = k := by
  constructor
  · intro h
    rcases List.mem_cons.mp h with h' | hmem
    · exact ⟨u, List.mem_cons_self u rest, h'.symm, hcat⟩
    · obtain ⟨v, hv, hvn, hvc⟩ := ih.mp hmem
      exact ⟨v, List.mem_cons_of_mem u hv, hvn, hvc⟩
  · rintro ⟨v, hv, hvn, hvc⟩
    rcases List.mem_cons.mp hv with rfl | hv'
    · exact List.mem_cons.mpr (Or.inl hvn.symm)
    · exact List.mem_cons.mpr (Or.inr (ih.mpr ⟨v, hv', hvn, hvc⟩))

/-- A user does not land in a list of a different branch index. -/
theorem cons_field_iff_other {u : String × UserData} {rest : CommitsData}
    {name : String} {k j : ℕ} (hkj : k ≠ j) {lst : List String}
    (hcat : activityCategory u = k)
    (ih : name ∈ lst ↔ ∃ v ∈ rest, v.1 = name ∧ activityCategory v = j) :
    name ∈ lst ↔ ∃ v ∈ u :: rest, v.1 = name ∧ activityCategory v = j := by
  constructor
  · intro h
    obtain ⟨v, hv, hvn, hvc⟩ := ih.mp h
    exact ⟨v, List.mem_cons_of_mem u hv, hvn, hvc⟩
  · rintro ⟨v, hv, hvn, hvc⟩
    rcases List.mem_cons.mp hv with rfl | hv'
    · exact absurd (hcat.symm.trans hvc) hkj
    · exact ih.mpr ⟨v, hv', hvn, hvc⟩

/-- Membership in each list of `classify_users_by_activity`,
characterized by the branch index. -/
theorem classify_fields_mem (data : CommitsData) (name : String) :
    (name ∈ (classify_users_by_activity data).inactive
      ↔ ∃ u ∈ data, u.1 = name ∧ activityCategory u = 0)
    ∧ (name ∈ (classify_users_by_activity data).casual
      ↔ ∃ u ∈ data, u.1 = name ∧ activityCategory u = 1)
    ∧ (name ∈ (classify_users_by_activity data).power_users
      ↔ ∃ u ∈ data, u.1 = name ∧ activityCategory u = 2)
    ∧ (name ∈ (classify_users_by_activity data).regular
      ↔ ∃ u ∈ data, u.1 = name ∧ activityCategory u = 3) := by
  induction data with
  | nil => simp [classify_users_by_activity]
  | cons u rest ih =>
    obtain ⟨ih0, ih1, ih2, ih3⟩ := ih
    simp only [classify_users_by_activity]
    split_ifs with h1 h2 h3
    · have hcat : activityCategory u = 0 := by
        unfold activityCategory
        rw [if_pos h1]
      exact ⟨cons_field_iff hcat ih0,
        cons_field_iff_other (by norm_num) hcat ih1,
        cons_field_iff_other (by norm_num) hcat ih2,
        cons_field_iff_other (by norm_num) hcat ih3⟩
    · have hcat : activityCategory u = 1 := by
        unfold activityCategory
        rw [if_neg h1, if_pos h2]
      exact ⟨cons_field_iff_other (by norm_num) hcat ih0,
        cons_field_iff hcat ih1,
        cons_field_iff_other (by norm_num) hcat ih2,
        cons_field_iff_other (by norm_num) hcat ih3⟩
    · have hcat : activityCategory u = 2 := by
        unfold activityCategory
        rw [if_neg h1, if_neg h2, if_pos h3]
      exact ⟨cons_field_iff_other (by norm_num) hcat ih0,
        cons_field_iff_other (by norm_num) hcat ih1,
        cons_field_iff hcat ih2,
        cons_field_iff_other (by norm_num) hcat ih3⟩
    · have hcat : activityCategory u = 3 := by
        unfold activityCategory
        rw [if_neg h1, if_neg h2, if_neg h3]
      exact ⟨cons_field_iff_other (by norm_num) hcat ih0,
        cons_field_iff_other (by norm_num) hcat ih1,
        cons_field_iff_other (by norm_num) hcat ih2,
        cons_field_iff hcat ih3⟩

/-- C9: activity classification is a partition. With `dict`-unique
usernames, every username appears in the union of the four lists iff it
is a user of the input, and the four lists are pairwise disjoint, so no
user is unclassified or counted twice. -/
theorem classify_users_by_activity_partition (data : CommitsData)
    (h : (data.map Prod.fst).Nodup) :
    (∀ name : String,
        (name ∈ (classify_users_by_activity data).inactive
          ∨ name ∈ (classify_users_by_activity data).casual
          ∨ name ∈ (classify_users_by_activity data).power_users
          ∨ name ∈ (classify_users_by_activity data).regular)
          ↔ name ∈ data.map Prod.fst)
    ∧ (classify_users_by_activity data).inactive.Disjoint
        (classify_users_by_activity data).casual
    ∧ (classify_users_by_activity data).inactive.Disjoint
        (classify_users_by_activity data).power_users
    ∧ (classify_users_by_activity data).inactive.Disjoint
        (classify_users_by_activity data).regular
    ∧ (classify_users_by_activity data).casual.Disjoint
        (classify_users_by_activity data).power_users
    ∧ (classify_users_by_activity data).casual.Disjoint
        (classify_users_by_activity data).regular
    ∧ (classify_users_by_activity data).power_users.Disjoint
        (classify_users_by_activity data).regular := by
  have key : ∀ (x : String) (i j : ℕ), i ≠ j →
      (∃ u ∈ data, u.1 = x ∧ activityCategory u = i) →
      (∃ v ∈ data, v.1 = x ∧ activityCategory v = j) → False := by
    rintro x i j hij ⟨u, hu, hux, hcu⟩ ⟨v, hv, hvx, hcv⟩
    have huv : u = v := List.inj_on_of_nodup_map h hu hv (hux.trans hvx.symm)
    rw [huv, hcv] at hcu
    exact hij hcu.symm
  refine ⟨?_, ?_, ?_, ?_, ?_, ?_, ?_⟩
  · intro name
    have hm := classify_fields_mem data name
    rw [hm.1, hm.2.1, hm.2.2.1, hm.2.2.2]
    constructor
    · rintro (⟨u, hu, rfl, -⟩ | ⟨u, hu, rfl, -⟩ | ⟨u, hu, rfl, -⟩ | ⟨u, hu, rfl, -⟩) <;>
        exact List.mem_map.mpr ⟨u, hu, rfl⟩
    · intro hname
      obtain ⟨u, hu, rfl⟩ := List.mem_map.mp hname
      rcases activityCategory_cases u with hc | hc | hc | hc
      · exact Or.inl ⟨u, hu, rfl, hc⟩
      · exact Or.inr (Or.inl ⟨u, hu, rfl, hc⟩)
      · exact Or.inr (Or.inr (Or.inl ⟨u, hu, rfl, hc⟩))
      · exact Or.inr (Or.inr (Or.inr ⟨u, hu, rfl, hc⟩))
  · intro x hx hy
    exact key x 0 1 (by norm_num) ((classify_fields_mem data x).1.mp hx)
      ((classify_fields_mem data x).2.1.mp hy)
  · intro x hx hy
    exact key x 0 2 (by norm_num) ((classify_fields_mem data x).1.mp hx)
      ((classify_fields_mem data x).2.2.1.mp hy)
  · intro x hx hy
    exact key x 0 3 (by norm_num) ((classify_fields_mem data x).1.mp hx)
      ((classify_fields_mem data x).2.2.2.mp hy)
  · intro x hx hy
    exact key x 1 2 (by norm_num) ((classify_fields_mem data x).2.1.mp hx)
      ((classify_fields_mem data x).2.2.1.mp hy)
  · intro x hx hy
    exact key x 1 3 (by norm_num) ((classify_fields_mem data x).2.1.mp hx)
      ((classify_fields_mem data x).2.2.2.mp hy)
  · intro x hx hy
    exact key x 2 3 (by norm_num) ((classify_fields_mem data x).2.2.1.mp hx)
      ((classify_fields_mem data x).2.2.2.mp hy)

/-- Witness for C9 on `exData3` (one user per category). -/
theorem classify_users_by_activity_partition_witness :
    ("c" ∈ (classify_users_by_activity exData3).inactive
      ∨ "c" ∈ (classify_users_by_activity exData3).casual
      ∨ "c" ∈ (classify_users_by_activity exData3).power_users
      ∨ "c" ∈ (classify_users_by_activity exData3).regular)
    ∧ (classify_users_by_activity exData3).casual.Disjoint
        (classify_users_by_activity exData3).power_users :=
  ⟨((classify_users_by_activity_partition exData3 (by decide)).1 "c").mpr (by decide),
   (classify_users_by_activity_partition exData3 (by decide)).2.2.2.2.1⟩

/-- Each cleaned cell is at most the original cell: removal only zeroes
cells. -/
theorem cleanedCell_le (uwd : List (String × (ℤ → ℕ))) (p : ℚ) (w : ℤ)
    (u : String × (ℤ → ℕ)) : cleanedCell uwd p w u ≤ u.2 w := by
  unfold cleanedCell
  split <;> omega

/-- C10: outlier removal never raises per-week averages. For every week
of `sorted_weeks`, `remove_user_week_outliers` reports the pair of that
week and its cleaned average, `calculate_weekly_averages` the pair with
the original average, and the cleaned average is at most the original —
removal only drops non-negative cells above the week-local threshold
while the divisor (the total user count) stays unchanged. -/
theorem remove_user_week_outliers_le (uwd : List (String × (ℤ → ℕ)))
    (sorted_weeks : List ℤ) (p : ℚ) (hu : uwd ≠ []) (hw : sorted_weeks ≠ [])
    (w : ℤ) (hmem : w ∈ sorted_weeks) :
    (w, cleanedWeekAvg uwd p w) ∈ (remove_user_week_outliers uwd sorted_weeks p).1
    ∧ (w, weekAvg uwd w) ∈ calculate_weekly_averages uwd sorted_weeks
    ∧ cleanedWeekAvg uwd p w ≤ weekAvg uwd w := by
  have hcond : ¬((uwd.isEmpty || sorted_weeks.isEmpty) = true) := by
    simp [List.isEmpty_iff, hu, hw]
  refine ⟨?_, ?_, ?_⟩
  · unfold remove_user_week_outliers
    rw [if_neg hcond]
    exact List.mem_map.mpr ⟨w, hmem, rfl⟩
  · unfold calculate_weekly_averages
    rw [if_neg hcond]
    exact List.mem_map.mpr ⟨w, hmem, rfl⟩
  · unfold cleanedWeekAvg weekAvg
    have hsum : (uwd.map (cleanedCell uwd p w)).sum
        ≤ (uwd.map (fun u => u.2 w)).sum :=
      List.sum_le_sum (fun u _ => cleanedCell_le uwd p w u)
    gcongr

/-- Witness for C10 on `exUwd` with week 198 and threshold 50%. -/
theorem remove_user_week_outliers_le_witness :
    (198, cleanedWeekAvg exUwd 50 198) ∈ (remove_user_week_outliers exUwd [198] 50).1
    ∧ (198, weekAvg exUwd 198) ∈ calculate_weekly_averages exUwd [198]
    ∧ cleanedWeekAvg exUwd 50 198 ≤ weekAvg exUwd 198 :=
  remove_user_week_outliers_le exUwd [198] 50 (List.cons_ne_nil _ _)
    (List.cons_ne_nil _ _) 198 (List.mem_singleton.mpr rfl)

/-- A sum of non-negative rationals vanishes iff every term does. -/
theorem qsum_eq_zero_iff (l : List ℚ) (h : ∀ x ∈ l, 0 ≤ x) :
    l.sum = 0 ↔ ∀ x ∈ l, x = 0 := by
  induction l with
  | nil => simp
  | cons a l ih =>
    have ha : 0 ≤ a := h a (by simp)
    have hl : ∀ x ∈ l, 0 ≤ x := fun x hx => h x (by simp [hx])
    have hs : 0 ≤ l.sum := List.sum_nonneg hl
    simp only [List.sum_cons, List.mem_cons]
    constructor
    · intro h0
      have ha0 : a = 0 := by linarith
      have hs0 : l.sum = 0 := by linarith
      rintro x (rfl | hx)
      · exact ha0
      · exact (ih hl).mp hs0 x hx
    · intro hall
      rw [hall a (Or.inl rfl), (ih hl).mpr (fun x hx => hall x (Or.inr hx))]
      norm_num

/-- Every active-day count is strictly positive. -/
theorem activeDaysOf_pos (daily : List (RawDate × ℕ)) :
    ∀ x ∈ activeDaysOf daily, 0 < x := by
  intro x hx
  unfold activeDaysOf at hx
  simpa using List.of_mem_filter hx

/-- The mean of a non-empty list of positive counts is positive. -/
theorem npMean_pos (l : List ℕ) (hpos : ∀ x ∈ l, 0 < x) (hne : l ≠ []) :
    0 < npMean l := by
  unfold npMean
  apply div_pos
  · exact_mod_cast List.sum_pos l hpos hne
  · exact_mod_cast List.length_pos.mpr hne

/-- The population variance is non-negative. -/
theorem npVariance_nonneg (l : List ℕ) : 0 ≤ npVariance l := by
  unfold npVariance
  apply div_nonneg
  · apply List.sum_nonneg
    intro x hx
    obtain ⟨a, _, rfl⟩ := List.mem_map.mp hx
    positivity
  · positivity

/-- The population variance vanishes iff every element equals the mean. -/
theorem npVariance_eq_zero_iff (l : List ℕ) (hne : l ≠ []) :
    npVariance l = 0 ↔ ∀ x ∈ l, (x : ℚ) = npMean l := by
  unfold npVariance
  have hlen : (0 : ℚ) < (l.length : ℚ) := by
    exact_mod_cast List.length_pos.mpr hne
  rw [div_eq_zero_iff]
  have hlne : ¬((l.length : ℚ) = 0) := ne_of_gt hlen
  simp only [hlne, or_false]
  rw [qsum_eq_zero_iff (l.map (fun (x : ℕ) => ((x : ℚ) - npMean l) ^ 2)) (by
    intro y hy
    obtain ⟨x, -, rfl⟩ := List.mem_map.mp hy
    positivity)]
  constructor
  · intro h x hx
    have h2 : ((x : ℚ) - npMean l) ^ 2 = 0 :=
      h (((x : ℚ) - npMean l) ^ 2)
        (List.mem_map_of_mem (fun x : ℕ => ((x : ℚ) - npMean l) ^ 2) hx)
    have h3 : (x : ℚ) - npMean l = 0 := by
      exact pow_eq_zero_iff (by norm_num) |>.mp h2
    linarith
  · intro h y hy
    obtain ⟨x, hx, rfl⟩ := List.mem_map.mp hy
    rw [h x hx, sub_self]
    norm_num

/-- All elements equal the mean iff the list is constant. -/
theorem mean_const_iff (l : List ℕ) (hne : l ≠ []) :
    (∀ x ∈ l, (x : ℚ) = npMean l) ↔ ∀ x ∈ l, ∀ y ∈ l, x = y := by
  constructor
  · intro h x hx y hy
    have := (h x hx).trans (h y hy).symm
    exact_mod_cast this
  · intro h x hx
    have hall : ∀ y ∈ l, y = x := fun y hy => h y hy x hx
    unfold npMean
    rw [List.sum_eq_card_nsmul l x hall]
    have hlen : (0 : ℚ) < (l.length : ℚ) := by
      exact_mod_cast List.length_pos.mpr hne
    push_cast [smul_eq_mul]
    field_simp

/-- C8: consistency score. With at least two active days in the window,
`calculate_consistency_score` is `1 / (1 + cv)` for
`cv = std/mean` of the active-day counts, the score lies in `(0, 1]`,
and it equals `1` exactly when the active-day counts are constant; with
fewer than two active days it is `0`. -/
theorem calculate_consistency_score_spec (daily : List (RawDate × ℕ)) :
    (2 ≤ (activeDaysOf daily).length →
      calculate_consistency_score daily
          = 1 / (1 + npStd (activeDaysOf daily)
              / ((npMean (activeDaysOf daily) : ℚ) : ℝ))
      ∧ 0 < calculate_consistency_score daily
      ∧ calculate_consistency_score daily ≤ 1
      ∧ (calculate_consistency_score daily = 1
          ↔ ∀ x ∈ activeDaysOf daily, ∀ y ∈ activeDaysOf daily, x = y))
    ∧ ((activeDaysOf daily).length < 2 → calculate_consistency_score daily = 0) := by
  constructor
  · intro h
    have hne : activeDaysOf daily ≠ [] := by
      intro he
      rw [he] at h
      simp at h
    have hpos := activeDaysOf_pos daily
    have hmean : 0 < npMean (activeDaysOf daily) := npMean_pos _ hpos hne
    have hg1 : ¬(((filter_may_august_commits daily).map (·.2)) = []) := by
      intro he
      apply hne
      unfold activeDaysOf
      rw [he]
      rfl
    have hg2 : ¬(((filter_may_august_commits daily).map (·.2)).sum = 0) := by
      intro he
      apply hne
      have hz := List.sum_eq_zero_iff.mp he
      unfold activeDaysOf
      apply List.filter_eq_nil_iff.mpr
      intro a ha
      simp [hz a ha]
    have hg3 : ¬((activeDaysOf daily).length < 2) := not_lt.mpr h
    have hg4 : ¬(npMean (activeDaysOf daily) = 0) := ne_of_gt hmean
    have hscore : calculate_consistency_score daily
        = 1 / (1 + npStd (activeDaysOf daily)
            / ((npMean (activeDaysOf daily) : ℚ) : ℝ)) := by
      unfold calculate_consistency_score
      rw [if_neg hg1, if_neg hg2, if_neg hg3, if_neg hg4]
    have hstd : 0 ≤ npStd (activeDaysOf daily) := Real.sqrt_nonneg _
    have hmeanR : (0 : ℝ) < ((npMean (activeDaysOf daily) : ℚ) : ℝ) := by
      exact_mod_cast hmean
    have hcv : 0 ≤ npStd (activeDaysOf daily)
        / ((npMean (activeDaysOf daily) : ℚ) : ℝ) :=
      div_nonneg hstd hmeanR.le
    have hden : (0 : ℝ) < 1 + npStd (activeDaysOf daily)
        / ((npMean (activeDaysOf daily) : ℚ) : ℝ) := by linarith
    refine ⟨hscore, ?_, ?_, ?_⟩
    · rw [hscore]
      positivity
    · rw [hscore, div_le_one hden]
      linarith
    · rw [hscore, ← npVariance_eq_zero_iff _ hne |>.trans (mean_const_iff _ hne)]
      constructor
      · intro he
        have h2 := (div_eq_iff (ne_of_gt hden)).mp he
        have hcv0 : npStd (activeDaysOf daily)
            / ((npMean (activeDaysOf daily) : ℚ) : ℝ) = 0 := by
          linarith
        have hstd0 : npStd (activeDaysOf daily) = 0 := by
          rcases div_eq_zero_iff.mp hcv0 with h0 | h0
          · exact h0
          · exact absurd h0 (ne_of_gt hmeanR)
        unfold npStd at hstd0
        have hvle : ((npVariance (activeDaysOf daily) : ℚ) : ℝ) ≤ 0 :=
          Real.sqrt_eq_zero'.mp hstd0
        have : npVariance (activeDaysOf daily) ≤ 0 := by exact_mod_cast hvle
        exact le_antisymm this (npVariance_nonneg _)
      · intro hv
        unfold npStd
        rw [hv]
        push_cast
        rw [Real.sqrt_zero, zero_div]
        norm_num
  · intro hlt
    unfold calculate_consistency_score
    split_ifs with g1 g2 g3 g4 <;> first | rfl | exact absurd hlt g3

/-- Witness for C8: two active days of 2 commits each give score 1. -/
theorem calculate_consistency_score_spec_witness :
    2 ≤ (activeDaysOf [(some 121, 2), (some 122, 2)]).length
    ∧ calculate_consistency_score [(some 121, 2), (some 122, 2)] = 1 :=
  ⟨by decide,
   ((calculate_consistency_score_spec [(some 121, 2), (some 122, 2)]).1
      (by decide)).2.2.2.mpr (by decide)⟩

end DataTesis
